import Mathlib

/-!
Verification of the Markdown block scanner in `generate_pdf.py`
(`markdown_to_pdf_simple`, lines 106-216): the line-by-line classification
loop that turns Markdown text into an ordered list of rendering elements.

Strings are modelled as `List Char`.  Python's `str.strip()` is modelled
over the common ASCII whitespace characters; `re`'s `\d` is modelled as the
ASCII digits (the scanned inputs of interest are ASCII).  Fallible parts of
the source do not occur in the scanner: it is a total pass over the lines.
-/

namespace GenPdf

/-- ASCII whitespace, as stripped by Python's `str.strip()`. -/
def isPySpace (c : Char) : Bool :=
  c == ' ' || c == '\t' || c == '\n' || c == '\r' || c == Char.ofNat 11 || c == Char.ofNat 12

/-- `startsWithC s p` is Python's `s.startswith(p)`. -/
def startsWithC : List Char → List Char → Bool
  | _, [] => true
  | [], _ :: _ => false
  | c :: cs, p :: ps => p == c && startsWithC cs ps

/-- Python's `s.strip()`: drop leading and trailing whitespace. -/
def strip (s : List Char) : List Char :=
  (((s.dropWhile isPySpace).reverse).dropWhile isPySpace).reverse

/-- Python's `s.split(sep)` for a one-character separator (always returns
at least one piece, like Python). -/
def splitOnC (sep : Char) : List Char → List (List Char)
  | [] => [[]]
  | c :: cs =>
    if c == sep then [] :: splitOnC sep cs
    else
      match splitOnC sep cs with
      | [] => [[c]]
      | l :: ls => (c :: l) :: ls

/-- Python's `s.replace(pat, rep)` (all non-overlapping occurrences, left
to right), with fuel for termination; fuel `s.length` always suffices for a
non-empty pattern. -/
def replaceAllF : Nat → List Char → List Char → List Char → List Char
  | 0, _, _, s => s
  | _ + 1, _, _, [] => []
  | f + 1, pat, rep, c :: cs =>
    if startsWithC (c :: cs) pat then rep ++ replaceAllF f pat rep ((c :: cs).drop pat.length)
    else c :: replaceAllF f pat rep cs

def replaceAll (pat rep s : List Char) : List Char :=
  replaceAllF s.length pat rep s

/-- Lazy group of `O(.+?)C`: split `s` as `g ++ close ++ rest` with `g`
nonempty and minimal, as a lazy regex group does. -/
def splitAtClose (close : List Char) : List Char → Option (List Char × List Char)
  | [] => none
  | c :: cs =>
    if startsWithC cs close then some ([c], cs.drop close.length)
    else (splitAtClose close cs).map (fun p => (c :: p.1, p.2))

/-- `re.sub(op + "(.+?)" + cl, pre + "\1" + post, s)`: at each position try
to match the opener, a minimal nonempty group, and the closer; on success
emit `pre ++ group ++ post` and continue after the match, otherwise advance
one character.  Fuel `s.length` always suffices for a nonempty opener. -/
def subPairF : Nat → List Char → List Char → List Char → List Char → List Char → List Char
  | 0, _, _, _, _, s => s
  | _ + 1, _, _, _, _, [] => []
  | f + 1, op, cl, pre, post, c :: cs =>
    if startsWithC (c :: cs) op then
      match splitAtClose cl ((c :: cs).drop op.length) with
      | some (g, rest) => pre ++ g ++ post ++ subPairF f op cl pre post rest
      | none => c :: subPairF f op cl pre post cs
    else c :: subPairF f op cl pre post cs

def subPair (op cl pre post s : List Char) : List Char :=
  subPairF s.length op cl pre post s

/-- Match of `(.+?)\]\((.+?)\)` against the text after a `[`: a minimal
label such that a literal `](` follows and some minimal nonempty URL group
closed by `)` exists after it (regex backtracking extends the label when the
URL part cannot close).  Returns the label and the text after the match. -/
def matchLink : List Char → Option (List Char × List Char)
  | [] => none
  | c :: cs =>
    if startsWithC cs (']' :: ['(']) then
      match splitAtClose [')'] (cs.drop 2) with
      | some (_, rest) => some ([c], rest)
      | none => (matchLink cs).map (fun p => (c :: p.1, p.2))
    else (matchLink cs).map (fun p => (c :: p.1, p.2))

/-- `re.sub(r"\[(.+?)\]\((.+?)\)", r"<u>\1</u>", s)`: the URL group is
discarded.  Fuel `s.length` always suffices. -/
def subLinkF : Nat → List Char → List Char
  | 0, s => s
  | _ + 1, [] => []
  | f + 1, c :: cs =>
    if c == '[' then
      match matchLink cs with
      | some (g, rest) => "<u>".data ++ g ++ "</u>".data ++ subLinkF f rest
      | none => c :: subLinkF f cs
    else c :: subLinkF f cs

def subLink (s : List Char) : List Char :=
  subLinkF s.length s

/-- Line 207: `re.sub(r"\*\*(.+?)\*\*", r"<b>\1</b>", text)`. -/
def subBold (s : List Char) : List Char :=
  subPair "**".data "**".data "<b>".data "</b>".data s

/-- Line 208: `re.sub(r"\*(.+?)\*", r"<i>\1</i>", text)`. -/
def subItalic (s : List Char) : List Char :=
  subPair "*".data "*".data "<i>".data "</i>".data s

/-- Line 210: the inline-code substitution into a Courier font span. -/
def subCode (s : List Char) : List Char :=
  subPair "`".data "`".data "<font face=\"Courier\" size=\"9\">".data "</font>".data s

/-- Lines 206-212: the paragraph inline substitutions in source order —
bold, then italic, then inline code, then link. -/
def applyInline (s : List Char) : List Char :=
  subLink (subCode (subItalic (subBold s)))

/-- ASCII digit, modelling `\d` on the inputs of interest. -/
def isDigitC (c : Char) : Bool :=
  '0' ≤ c && c ≤ '9'

/-- After one leading digit: consume further digits, then require `". "`;
returns the text after the matched prefix. -/
def numTailAux : List Char → Option (List Char)
  | '.' :: ' ' :: rest => some rest
  | c :: cs => if isDigitC c then numTailAux cs else none
  | [] => none

/-- `re.match(r"^\d+\. ", line)`: `some rest` when the line starts with one
or more digits followed by `". "`, with `rest` the remainder. -/
def numTail : List Char → Option (List Char)
  | [] => none
  | c :: cs => if isDigitC c then numTailAux cs else none

/-- Line 174: `re.sub(r"^\d+\. ", "", line)`. -/
def stripOrdinal (s : List Char) : List Char :=
  match numTail s with
  | some r => r
  | none => s

/-- Line 168: the three checkbox-glyph replacements, in source order. -/
def checkboxSubst (s : List Char) : List Char :=
  replaceAll ['⚠', Char.ofNat 0xFE0F] ['⚠'] (replaceAll ['❌'] ['☐'] (replaceAll ['✅'] ['☑'] s))

/-- The paragraph styles passed to reportlab `Paragraph`s, by name. -/
inductive Style
  | title
  | heading1
  | heading2
  | heading3
  | body
  | code
deriving DecidableEq, Repr

/-- One entry of the `elements` list handed to `doc.build`:
`Spacer(w, h)`, `Paragraph(text, style)`, `PageBreak()`, or `Table(rows)`. -/
inductive Element
  | spacer (w h : Nat)
  | para (text : List Char) (st : Style)
  | pageBreak
  | table (rows : List (List (List Char)))
deriving DecidableEq, Repr

/-- Line 160: the truncation marker appended to an over-long code block. -/
def truncNotice : List Char :=
  "<br/>... (truncated)".data

/-- Python's `"<br/>".join(ls)`. -/
def joinBr : List (List Char) → List Char
  | [] => []
  | [l] => l
  | l :: ls => l ++ "<br/>".data ++ joinBr ls

/-- Lines 158-160: `"<br/>".join(code_lines[:30])`, plus the truncation
notice when more than 30 lines were captured. -/
def mkCodeText (cls : List (List Char)) : List Char :=
  joinBr (cls.take 30) ++ (if 30 < cls.length then truncNotice else [])

/-- Line 181: `[cell.strip() for cell in raw.split('|')[1:-1]]`. -/
def rowOfLine (raw : List Char) : List (List Char) :=
  (((splitOnC '|' raw).drop 1).dropLast).map strip

/-- Line 182: `all(cell.startswith('-') for cell in row)`. -/
def isSepRow (r : List (List Char)) : Bool :=
  r.all (fun cell => startsWithC cell ['-'])

/-- Lines 179-184: the rows collected for one contiguous table run — the
current raw line together with the following raw lines whose stripped form
begins with `|`, each split into cells, separator rows dropped. -/
def tableRows (raw : List Char) (rest : List (List Char)) : List (List (List Char)) :=
  ((raw :: rest.takeWhile (fun l => startsWithC (strip l) ['|'])).map rowOfLine).filter
    (fun r => !isSepRow r)

/-- Lines 155-157: the body of a fenced code block — the raw lines up to the
next line whose stripped form begins with a triple backtick. -/
def codeBody (rest : List (List Char)) : List (List Char) :=
  rest.takeWhile (fun l => !startsWithC (strip l) "```".data)

/-- The block kind the dispatch chain of lines 114-216 assigns a line. -/
inductive LineKind
  | blank
  | title
  | h1
  | h2
  | h3
  | hrule
  | fenceOpen
  | bullet
  | numbered
  | tableRow
  | par
deriving DecidableEq, Repr

/-- The first-match-wins classification of lines 114-216, evaluated on the
stripped line exactly as the source's `elif` chain does. -/
def classifyLine (raw : List Char) : LineKind :=
  if (strip raw).isEmpty then .blank
  else if startsWithC (strip raw) "# ".data && !startsWithC (strip raw) "## ".data then .title
  else if startsWithC (strip raw) "## ".data && !startsWithC (strip raw) "### ".data then .h1
  else if startsWithC (strip raw) "### ".data && !startsWithC (strip raw) "#### ".data then .h2
  else if startsWithC (strip raw) "#### ".data then .h3
  else if startsWithC (strip raw) "---".data then .hrule
  else if startsWithC (strip raw) "```".data then .fenceOpen
  else if startsWithC (strip raw) "- ".data || startsWithC (strip raw) "* ".data then .bullet
  else if (numTail (strip raw)).isSome then .numbered
  else if startsWithC (strip raw) ['|'] then .tableRow
  else .par

/-- The horizontal-rule cell of line 148: `'—' * 80`. -/
def hruleCells : List Char :=
  List.replicate 80 '—'

/-- One iteration of the `while i < len(lines)` loop (lines 110-216) at the
line `raw`, with `rest` the lines after it and `acc` the elements emitted so
far.  Returns the new element list and the lines still to be scanned. -/
def scanStep (raw : List Char) (rest : List (List Char)) (acc : List Element) :
    List Element × List (List Char) :=
  match classifyLine raw with
  | .blank => (acc ++ [.spacer 1 6], rest)
  | .title => (acc ++ [.para (strip ((strip raw).drop 2)) .title, .spacer 1 12], rest)
  | .h1 =>
    (acc ++ (if acc.length > 0 then [.pageBreak] else [])
      ++ [.para (strip ((strip raw).drop 3)) .heading1, .spacer 1 6], rest)
  | .h2 => (acc ++ [.para (strip ((strip raw).drop 4)) .heading2, .spacer 1 6], rest)
  | .h3 => (acc ++ [.para (strip ((strip raw).drop 5)) .heading3, .spacer 1 4], rest)
  | .hrule => (acc ++ [.spacer 1 6, .table [[hruleCells]], .spacer 1 6], rest)
  | .fenceOpen =>
    (acc ++ [.para (mkCodeText (codeBody rest)) .code, .spacer 1 6],
      rest.drop ((codeBody rest).length + 1))
  | .bullet =>
    (acc ++ [.para ("• ".data ++ checkboxSubst (strip ((strip raw).drop 2))) .body], rest)
  | .numbered => (acc ++ [.para (stripOrdinal (strip raw)) .body], rest)
  | .tableRow =>
    (if (tableRows raw rest).isEmpty then acc
      else acc ++ [.table ((tableRows raw rest).take 20), .spacer 1 12],
      rest.drop ((rest.takeWhile (fun l => startsWithC (strip l) ['|'])).length))
  | .par => (acc ++ [.para (applyInline (strip raw)) .body], rest)

/-- The scanning loop, with fuel for termination; fuel `ls.length` always
suffices because every iteration consumes at least the current line. -/
def scanListF : Nat → List (List Char) → List Element → List Element
  | 0, _, acc => acc
  | _ + 1, [], acc => acc
  | f + 1, raw :: rest, acc => scanListF f (scanStep raw rest acc).2 (scanStep raw rest acc).1

/-- Lines 106-216: split the content on newlines and run the scanning loop
from an empty element list. -/
def scan (content : List Char) : List Element :=
  scanListF (splitOnC '\n' content).length (splitOnC '\n' content) []

/-! ### Concrete inputs used by the claims -/

/-- Join lines with newlines (inverse of the `split('\n')` of line 107 on
newline-free lines); used to build concrete scanner inputs. -/
def joinNl : List (List Char) → List Char
  | [] => []
  | [l] => l
  | l :: ls => l ++ '\n' :: joinNl ls

/-- 35 distinct code lines `l00` … `l34`. -/
def c1body : List (List Char) :=
  (List.range 35).map (fun k => ['l', Char.ofNat (48 + k / 10), Char.ofNat (48 + k % 10)])

/-- A fenced code block enclosing the 35 lines of `c1body`. -/
def c1input : List Char :=
  joinNl ("```".data :: c1body ++ ["```".data])

/-- A table: header row, dash separator row, then 25 data rows `a` … `y`. -/
def c2input : List Char :=
  "|H|\n|-|\n|a|\n|b|\n|c|\n|d|\n|e|\n|f|\n|g|\n|h|\n|i|\n|j|\n|k|\n|l|\n|m|\n|n|\n|o|\n|p|\n|q|\n|r|\n|s|\n|t|\n|u|\n|v|\n|w|\n|x|\n|y|".data

/-- The 20 rows the scanner keeps from `c2input`: the header and the first
19 data rows. -/
def c2rows : List (List (List Char)) :=
  [[['H']],
   [['a']],
   [['b']],
   [['c']],
   [['d']],
   [['e']],
   [['f']],
   [['g']],
   [['h']],
   [['i']],
   [['j']],
   [['k']],
   [['l']],
   [['m']],
   [['n']],
   [['o']],
   [['p']],
   [['q']],
   [['r']],
   [['s']]]

/-! ### Helper lemmas -/

theorem startsWithC_iff (s p : List Char) : startsWithC s p = true ↔ ∃ t, s = p ++ t := by
  induction p generalizing s with
  | nil => simp [startsWithC]
  | cons a ps ih =>
    cases s with
    | nil => simp [startsWithC]
    | cons c cs =>
      simp only [startsWithC, Bool.and_eq_true, beq_iff_eq, ih, List.cons_append]
      constructor
      · rintro ⟨rfl, t, rfl⟩
        exact ⟨t, rfl⟩
      · rintro ⟨t, h⟩
        cases h
        exact ⟨rfl, t, rfl⟩

theorem dropWhile_append_all {p : Char → Bool} {a l : List Char}
    (h : ∀ c ∈ a, p c = true) : (a ++ l).dropWhile p = l.dropWhile p := by
  induction a with
  | nil => rfl
  | cons c cs ih =>
    have hc : p c = true := h c (by simp)
    simp [List.dropWhile, hc]
    exact ih (fun d hd => h d (by simp [hd]))

theorem dropWhile_all_nil {p : Char → Bool} {l : List Char}
    (h : ∀ c ∈ l, p c = true) : l.dropWhile p = [] := by
  rw [List.dropWhile_eq_nil_iff]
  intro x hx
  exact h x hx

theorem dropWhile_append_not_all {p : Char → Bool} {l b : List Char}
    (h : ¬ ∀ c ∈ l, p c = true) : (l ++ b).dropWhile p = l.dropWhile p ++ b := by
  induction l with
  | nil => exact absurd (by simp) h
  | cons c cs ih =>
    by_cases hc : p c = true
    · have h' : ¬ ∀ d ∈ cs, p d = true := by
        intro hall
        apply h
        intro d hd
        rcases List.mem_cons.mp hd with rfl | h2
        · exact hc
        · exact hall d h2
      simp only [List.cons_append, List.dropWhile, hc]
      exact ih h'
    · have hc' : p c = false := by simpa using hc
      simp [List.dropWhile, hc']

/-- Stripping ignores whitespace padding on either side. -/
theorem strip_pad {pre post : List Char} (s : List Char)
    (hpre : ∀ c ∈ pre, isPySpace c = true) (hpost : ∀ c ∈ post, isPySpace c = true) :
    strip (pre ++ s ++ post) = strip s := by
  by_cases hall : ∀ c ∈ s, isPySpace c = true
  · have h1 : (pre ++ s ++ post).dropWhile isPySpace = [] := by
      apply dropWhile_all_nil
      intro c hc
      simp only [List.append_assoc, List.mem_append] at hc
      rcases hc with h | h | h
      · exact hpre c h
      · exact hall c h
      · exact hpost c h
    have h2 : s.dropWhile isPySpace = [] := dropWhile_all_nil hall
    simp only [strip]
    rw [h1, h2]
  · have h1 : (pre ++ s ++ post).dropWhile isPySpace
        = s.dropWhile isPySpace ++ post := by
      rw [List.append_assoc, dropWhile_append_all hpre, dropWhile_append_not_all hall]
    have h2 : ∀ c ∈ post.reverse, isPySpace c = true := by
      intro c hc
      exact hpost c (List.mem_reverse.mp hc)
    simp only [strip, h1, List.reverse_append, dropWhile_append_all h2]

theorem takeWhile_append_cons {p : List Char → Bool} {a : List (List Char)}
    {f : List Char} {r : List (List Char)}
    (ha : ∀ l ∈ a, p l = true) (hf : p f = false) :
    (a ++ f :: r).takeWhile p = a := by
  induction a with
  | nil => simp [List.takeWhile, hf]
  | cons x xs ih =>
    simp [List.takeWhile, ha x (by simp)]
    exact ih (fun l hl => ha l (by simp [hl]))

theorem drop_append_cons {α : Type} (a : List α) (f : α) (r : List α) :
    (a ++ f :: r).drop (a.length + 1) = r := by
  induction a with
  | nil => rfl
  | cons x xs ih =>
    simp only [List.cons_append, List.length_cons, List.drop_succ_cons]
    exact ih

theorem joinBr_append_single {xs : List (List Char)} (y : List Char) (h : xs ≠ []) :
    joinBr (xs ++ [y]) = joinBr xs ++ "<br/>".data ++ y := by
  induction xs with
  | nil => exact absurd rfl h
  | cons x xs ih =>
    cases xs with
    | nil => simp [joinBr]
    | cons z zs =>
      have h2 := ih (List.cons_ne_nil z zs)
      have e1 : joinBr ((x :: z :: zs) ++ [y])
          = x ++ "<br/>".data ++ joinBr ((z :: zs) ++ [y]) := rfl
      have e2 : joinBr (x :: z :: zs) = x ++ "<br/>".data ++ joinBr (z :: zs) := rfl
      rw [e1, h2, e2]
      simp [List.append_assoc]

theorem classify_title {raw : List Char} (h1 : startsWithC (strip raw) "# ".data = true) :
    classifyLine raw = .title := by
  rcases (startsWithC_iff _ _).mp h1 with ⟨t, ht⟩
  simp [classifyLine, ht, startsWithC, numTail, isDigitC]

theorem classify_h1 {raw : List Char} (h1 : startsWithC (strip raw) "## ".data = true) :
    classifyLine raw = .h1 := by
  rcases (startsWithC_iff _ _).mp h1 with ⟨t, ht⟩
  simp [classifyLine, ht, startsWithC, numTail, isDigitC]

theorem classify_fence {raw : List Char} (h : startsWithC (strip raw) "```".data = true) :
    classifyLine raw = .fenceOpen := by
  rcases (startsWithC_iff _ _).mp h with ⟨t, ht⟩
  simp [classifyLine, ht, startsWithC, numTail, isDigitC]

theorem classify_table {raw : List Char} (h : startsWithC (strip raw) ['|'] = true) :
    classifyLine raw = .tableRow := by
  rcases (startsWithC_iff _ _).mp h with ⟨t, ht⟩
  simp [classifyLine, ht, startsWithC, numTail, isDigitC]

theorem classify_par {raw : List Char} (h0 : strip raw ≠ [])
    (h1 : startsWithC (strip raw) "# ".data = false)
    (h2 : startsWithC (strip raw) "## ".data = false)
    (h3 : startsWithC (strip raw) "### ".data = false)
    (h4 : startsWithC (strip raw) "#### ".data = false)
    (h5 : startsWithC (strip raw) "---".data = false)
    (h6 : startsWithC (strip raw) "```".data = false)
    (h7 : startsWithC (strip raw) "- ".data = false)
    (h8 : startsWithC (strip raw) "* ".data = false)
    (h9 : numTail (strip raw) = none)
    (h10 : startsWithC (strip raw) ['|'] = false) :
    classifyLine raw = .par := by
  have hne : (strip raw).isEmpty = false := by
    cases hs : strip raw with
    | nil => exact absurd hs h0
    | cons a l => rfl
  simp [classifyLine, hne, h1, h2, h3, h4, h5, h6, h7, h8, h9, h10]

/-- Every loop iteration consumes at least the current line: the lines left
after one `scanStep` are at most those after the current one. -/
theorem scanStep_rest_le (raw : List Char) (rest : List (List Char)) (acc : List Element) :
    (scanStep raw rest acc).2.length ≤ rest.length := by
  unfold scanStep
  cases h : classifyLine raw <;> simp [List.length_drop]

/-- One loop iteration appends at most three elements. -/
theorem scanStep_fst_le (raw : List Char) (rest : List (List Char)) (acc : List Element) :
    (scanStep raw rest acc).1.length ≤ acc.length + 3 := by
  unfold scanStep
  cases h : classifyLine raw <;> simp <;> split <;> simp

theorem scanListF_len (f : Nat) (ls : List (List Char)) (acc : List Element) :
    (scanListF f ls acc).length ≤ acc.length + 3 * ls.length := by
  induction f generalizing ls acc with
  | zero => simp [scanListF]
  | succ f ih =>
    cases ls with
    | nil => simp [scanListF]
    | cons raw rest =>
      have h1 := scanStep_fst_le raw rest acc
      have h2 := scanStep_rest_le raw rest acc
      have h3 := ih (scanStep raw rest acc).2 (scanStep raw rest acc).1
      simp only [scanListF, List.length_cons]
      omega

/-- Any fuel at least the number of remaining lines gives the same result:
the loop needs at most one iteration per input line. -/
theorem scanListF_congr (f g : Nat) (ls : List (List Char)) (acc : List Element)
    (hf : ls.length ≤ f) (hg : ls.length ≤ g) :
    scanListF f ls acc = scanListF g ls acc := by
  induction f generalizing g ls acc with
  | zero =>
    have : ls = [] := List.length_eq_zero.mp (Nat.le_zero.mp hf)
    subst this
    cases g <;> rfl
  | succ f ih =>
    cases ls with
    | nil => cases g <;> rfl
    | cons raw rest =>
      cases g with
      | zero => exact absurd hg (by simp)
      | succ g' =>
        have h2 := scanStep_rest_le raw rest acc
        simp only [scanListF]
        exact ih g' _ _
          (Nat.le_trans h2 (by simpa using Nat.le_of_succ_le_succ hf))
          (Nat.le_trans h2 (by simpa using Nat.le_of_succ_le_succ hg))

/-! ### Claims -/

set_option maxRecDepth 100000 in
/-- C1: every fenced code block yields a `CodeBlock` whose payload is the
`<br/>`-join of at most the first 30 captured lines, with exactly one
truncation-notice line appended when more were captured; a fence enclosing
35 lines yields exactly the first 30 lines plus the notice, the other 5
dropped.  First conjunct: the payload of any captured body is the join of
`body.take 30` (which has at most 30 lines) with the notice appended as one
extra joined line iff more than 30 lines were captured.  Second conjunct:
the fenced-code branch of the scanner captures exactly the lines up to the
closing fence and resumes after it.  Last conjuncts: the concrete 35-line
fence. -/
theorem C1_codeblock_cap :
    (∀ body : List (List Char),
        mkCodeText body
          = joinBr (body.take 30 ++ (if 30 < body.length then ["... (truncated)".data] else []))
        ∧ (body.take 30).length ≤ 30)
    ∧ (∀ raw body fline rest acc,
        startsWithC (strip raw) "```".data = true →
        (∀ l ∈ body, startsWithC (strip l) "```".data = false) →
        startsWithC (strip fline) "```".data = true →
        scanStep raw (body ++ fline :: rest) acc
          = (acc ++ [Element.para (mkCodeText body) Style.code, Element.spacer 1 6], rest))
    ∧ scan c1input
        = [Element.para (joinBr (c1body.take 30) ++ truncNotice) Style.code, Element.spacer 1 6]
    ∧ c1body.length = 35 := by
  refine ⟨fun body => ⟨?_, ?_⟩, fun raw body fline rest acc h1 h2 h3 => ?_, ?_, ?_⟩
  · by_cases h : 30 < body.length
    · have hlen : (body.take 30).length = 30 := by
        rw [List.length_take]
        omega
      have hne : body.take 30 ≠ [] := by
        intro hnil
        rw [hnil] at hlen
        simp at hlen
      rw [mkCodeText, if_pos h, if_pos h, joinBr_append_single _ hne]
      have : truncNotice = "<br/>".data ++ "... (truncated)".data := by decide
      rw [this, List.append_assoc]
    · rw [mkCodeText, if_neg h, if_neg h]
      simp
  · rw [List.length_take]
    omega
  · have hc : classifyLine raw = .fenceOpen := classify_fence h1
    have hbody : codeBody (body ++ fline :: rest) = body := by
      unfold codeBody
      apply takeWhile_append_cons
      · intro l hl
        simp [h2 l hl]
      · simp [h3]
    simp only [scanStep, hc, hbody, drop_append_cons]
  · decide
  · decide

/-- Witness for C1: a one-line fenced block, through the second conjunct. -/
theorem C1_witness :
    scanStep "```".data ([['x']] ++ "```".data :: []) []
      = ([Element.para ['x'] Style.code, Element.spacer 1 6], []) := by
  have h := C1_codeblock_cap.2.1 "```".data [['x']] "```".data [] []
    (by decide) (by decide) (by decide)
  exact h.trans (by decide)

set_option maxRecDepth 100000 in
/-- C2: a contiguous run of table lines yields a `TableBlock` of at most 20
rows after separator-row removal (`tableRows` collects the run's rows with
separator rows dropped; the emitted table is its 20-row cap).  The concrete
instance: a header row, one dash separator row and 25 data rows yield
exactly 20 rows — the header and the first 19 data rows. -/
theorem C2_table_cap :
    (∀ raw rest, ((tableRows raw rest).take 20).length ≤ 20)
    ∧ (∀ raw rest acc, startsWithC (strip raw) ['|'] = true →
        scanStep raw rest acc
          = (if (tableRows raw rest).isEmpty then acc
             else acc ++ [Element.table ((tableRows raw rest).take 20), Element.spacer 1 12],
             rest.drop ((rest.takeWhile (fun l => startsWithC (strip l) ['|'])).length)))
    ∧ scan c2input = [Element.table c2rows, Element.spacer 1 12]
    ∧ c2rows.length = 20 := by
  refine ⟨fun raw rest => ?_, fun raw rest acc h => ?_, ?_, ?_⟩
  · rw [List.length_take]
    omega
  · have hc : classifyLine raw = .tableRow := classify_table h
    simp only [scanStep, hc]
  · decide
  · decide

/-- Witness for C2: a two-line run (one data row, one separator row),
through the second conjunct. -/
theorem C2_witness :
    scanStep "|x|".data ["|-|".data] []
      = ([Element.table [[['x']]], Element.spacer 1 12], []) := by
  have h := C2_table_cap.2.1 "|x|".data ["|-|".data] [] (by decide)
  exact h.trans (by decide)

/-- C3 counterexample: the claim says a row is excluded iff every cell is
made only of dash characters.  On the run `"|x|" , "|-a|"` the code drops
the row `["-a"]` — whose cell contains the non-dash `a` — because the test
of line 182 is `cell.startswith('-')`, not an all-dash test: the emitted
table keeps only `[["x"]]`. -/
theorem C3_cex :
    scan "|x|\n|-a|".data = [Element.table [[['x']]], Element.spacer 1 12]
    ∧ rowOfLine "|-a|".data = [['-', 'a']]
    ∧ ¬ (∀ c ∈ ['-', 'a'], c = '-') := by
  decide

/-- C3 amended: during table scanning a row is excluded from the collected
rows iff every one of its cells *begins with* a dash character (so a row of
empty cell list is also excluded); rows with some cell not starting with a
dash are kept, subject to the 20-row cap applied afterwards. -/
theorem C3_sep_startswith : ∀ raw rest r,
    r ∈ tableRows raw rest ↔
      (r ∈ (raw :: rest.takeWhile (fun l => startsWithC (strip l) ['|'])).map rowOfLine
        ∧ ¬ (∀ cell ∈ r, startsWithC cell ['-'] = true)) := by
  intro raw rest r
  simp [tableRows, isSepRow, List.mem_filter, List.all_eq_true]

/-- Witness for C3's amended statement: the row `["-a"]` of the
one-line run `"|-a|"` is not among the collected rows. -/
theorem C3_witness : ¬ [['-', 'a']] ∈ tableRows "|-a|".data [] := by
  intro hmem
  have h := (C3_sep_startswith "|-a|".data [] [['-', 'a']]).mp hmem
  exact h.2 (by decide)

/-- C4 counterexample: the claim says every text-carrying block kind
(Title included) has the inline substitutions already applied to its
payload.  But the input `"# **x**"` yields a Title block whose payload is
the verbatim `"**x**"` — the bold substitution, which would have produced
`"<b>x</b>"`, was not applied: only the default Paragraph branch
(lines 204-214) runs the inline substitutions. -/
theorem C4_cex :
    scan "# **x**".data = [Element.para "**x**".data Style.title, Element.spacer 1 12]
    ∧ subBold "**x**".data = "<b>x</b>".data
    ∧ "**x**".data ≠ "<b>x</b>".data := by
  decide

/-- C4 amended: only Paragraph blocks (the default rule) carry a payload
with the inline substitutions applied.  Every other text-carrying kind
keeps inline markers verbatim: a Title/Heading1/Heading2/Heading3 payload
is the stripped remainder of the line after its marker, a BulletItem
payload gets only the checkbox-glyph replacements (plus the bullet prefix),
and a NumberedItem payload is the line after the ordinal prefix — none of
them passes through the inline substitutions. -/
theorem C4_only_paragraph_inline :
    (∀ raw rest acc, classifyLine raw = .par →
        scanStep raw rest acc
          = (acc ++ [Element.para (applyInline (strip raw)) Style.body], rest))
    ∧ (∀ raw rest acc, classifyLine raw = .title →
        scanStep raw rest acc
          = (acc ++ [Element.para (strip ((strip raw).drop 2)) Style.title,
              Element.spacer 1 12], rest))
    ∧ (∀ raw rest acc, classifyLine raw = .h1 →
        scanStep raw rest acc
          = (acc ++ (if acc.length > 0 then [Element.pageBreak] else [])
              ++ [Element.para (strip ((strip raw).drop 3)) Style.heading1,
                  Element.spacer 1 6], rest))
    ∧ (∀ raw rest acc, classifyLine raw = .h2 →
        scanStep raw rest acc
          = (acc ++ [Element.para (strip ((strip raw).drop 4)) Style.heading2,
              Element.spacer 1 6], rest))
    ∧ (∀ raw rest acc, classifyLine raw = .h3 →
        scanStep raw rest acc
          = (acc ++ [Element.para (strip ((strip raw).drop 5)) Style.heading3,
              Element.spacer 1 4], rest))
    ∧ (∀ raw rest acc, classifyLine raw = .bullet →
        scanStep raw rest acc
          = (acc ++ [Element.para ("• ".data ++ checkboxSubst (strip ((strip raw).drop 2)))
              Style.body], rest))
    ∧ (∀ raw rest acc, classifyLine raw = .numbered →
        scanStep raw rest acc
          = (acc ++ [Element.para (stripOrdinal (strip raw)) Style.body], rest)) := by
  refine ⟨fun raw rest acc h => ?_, fun raw rest acc h => ?_, fun raw rest acc h => ?_,
    fun raw rest acc h => ?_, fun raw rest acc h => ?_, fun raw rest acc h => ?_,
    fun raw rest acc h => ?_⟩
  · simp only [scanStep, h]
  · simp only [scanStep, h]
  · simp only [scanStep, h]
  · simp only [scanStep, h]
  · simp only [scanStep, h]
  · simp only [scanStep, h]
  · simp only [scanStep, h]

/-- Witness for C4's amended statement: a Title line whose payload keeps
the italic markers verbatim. -/
theorem C4_witness :
    scanStep "# a*b*".data [] []
      = ([Element.para "a*b*".data Style.title, Element.spacer 1 12], []) := by
  have h := C4_only_paragraph_inline.2.1 "# a*b*".data [] [] (by decide)
  exact h.trans (by decide)

/-- C5 counterexample: the claim bounds the emitted block count by the
input's line count, but the one-line input `"---"` emits three blocks
(a spacer, the rule table, a spacer). -/
theorem C5_cex :
    (scan "---".data).length = 3
    ∧ (splitOnC '\n' "---".data).length = 1
    ∧ ¬ ((scan "---".data).length ≤ (splitOnC '\n' "---".data).length) := by
  decide

/-- C5 amended: the block count is finite and bounded by three times the
input's line count (each consumed line appends at most three elements:
e.g. a horizontal rule emits spacer+table+spacer, a non-first `Heading1`
emits page-break+heading+spacer). -/
theorem C5_block_count : ∀ content : List Char,
    (scan content).length ≤ 3 * (splitOnC '\n' content).length := by
  intro content
  have h := scanListF_len (splitOnC '\n' content).length (splitOnC '\n' content) []
  simpa [scan] using h

/-- C6: the scan terminates on every input: every iteration of the
classification loop strictly advances the line cursor — also in the table
branch (its inner loop advances the cursor, and control returns without an
extra increment) and the fenced-code branch (an unterminated fence runs to
end of input) — so any fuel at least the line count, in particular the line
count the scanner uses, completes the loop. -/
theorem C6_termination :
    (∀ raw rest acc, ((scanStep raw rest acc).2).length < (raw :: rest).length)
    ∧ (∀ f ls acc, ls.length ≤ f → scanListF f ls acc = scanListF ls.length ls acc) := by
  constructor
  · intro raw rest acc
    have h := scanStep_rest_le raw rest acc
    simp only [List.length_cons]
    omega
  · intro f ls acc h
    exact scanListF_congr f ls.length ls acc h (Nat.le_refl _)

/-- Witness for C6: surplus fuel makes no difference on a concrete
two-line input. -/
theorem C6_witness :
    scanListF 7 ["# a".data, "b".data] [] = scanListF 2 ["# a".data, "b".data] [] := by
  exact C6_termination.2 7 ["# a".data, "b".data] [] (by decide)

/-- C7: a line beginning (after stripping) with `"## "` and not `"### "`
is emitted as a `Heading1`, immediately preceded by a page-break marker iff
at least one element was already emitted; a first-block `Heading1` gets no
page break. -/
theorem C7_h1_pagebreak : ∀ raw rest acc,
    startsWithC (strip raw) "## ".data = true →
    startsWithC (strip raw) "### ".data = false →
    scanStep raw rest acc
      = (acc ++ (if acc.length > 0 then [Element.pageBreak] else [])
          ++ [Element.para (strip ((strip raw).drop 3)) Style.heading1,
              Element.spacer 1 6], rest) := by
  intro raw rest acc h1 _h2
  have hc : classifyLine raw = .h1 := classify_h1 h1
  simp only [scanStep, hc]

/-- Witness for C7: with one element already emitted the page break is
inserted right before the heading. -/
theorem C7_witness :
    scanStep "## Sec".data [] [Element.spacer 1 6]
      = ([Element.spacer 1 6, Element.pageBreak,
          Element.para "Sec".data Style.heading1, Element.spacer 1 6], []) := by
  have h := C7_h1_pagebreak "## Sec".data [] [Element.spacer 1 6] (by decide) (by decide)
  exact h.trans (by decide)

/-- C8: for every line classified as Paragraph the inline substitutions
are applied in the fixed order bold, then italic, then inline code, then
link; on `"**bold** and *italic* and `code`"` this yields the strong span
around `bold`, the emphasis span around `italic`, and the monospace span
around `code`, in that left-to-right order; and link targets are
discarded (`[text](url)` keeps only the underlined label). -/
theorem C8_inline_order :
    (∀ raw rest acc, classifyLine raw = .par →
        scanStep raw rest acc
          = (acc ++ [Element.para (subLink (subCode (subItalic (subBold (strip raw)))))
              Style.body], rest))
    ∧ applyInline "**bold** and *italic* and `code`".data
        = "<b>bold</b> and <i>italic</i> and <font face=\"Courier\" size=\"9\">code</font>".data
    ∧ applyInline "[text](url)".data = "<u>text</u>".data := by
  refine ⟨fun raw rest acc h => ?_, by decide, by decide⟩
  simp only [scanStep, h, applyInline]

/-- Witness for C8: a concrete paragraph line through the first
conjunct. -/
theorem C8_witness :
    scanStep "*i* x".data [] [] = ([Element.para "<i>i</i> x".data Style.body], []) := by
  have h := C8_inline_order.1 "*i* x".data [] [] (by decide)
  exact h.trans (by decide)

/-- C9: the scanner rejects no line: any non-blank line matched by none of
the earlier classification rules is emitted as a Paragraph block by the
default rule (the scanner itself is a total function, so no input raises
an error). -/
theorem C9_default_paragraph : ∀ raw rest acc,
    strip raw ≠ [] →
    startsWithC (strip raw) "# ".data = false →
    startsWithC (strip raw) "## ".data = false →
    startsWithC (strip raw) "### ".data = false →
    startsWithC (strip raw) "#### ".data = false →
    startsWithC (strip raw) "---".data = false →
    startsWithC (strip raw) "```".data = false →
    startsWithC (strip raw) "- ".data = false →
    startsWithC (strip raw) "* ".data = false →
    numTail (strip raw) = none →
    startsWithC (strip raw) ['|'] = false →
    scanStep raw rest acc
      = (acc ++ [Element.para (applyInline (strip raw)) Style.body], rest) := by
  intro raw rest acc h0 h1 h2 h3 h4 h5 h6 h7 h8 h9 h10
  have hc : classifyLine raw = .par := classify_par h0 h1 h2 h3 h4 h5 h6 h7 h8 h9 h10
  simp only [scanStep, hc]

/-- Witness for C9: the line `"hello"` matches no earlier rule and is
emitted as a Paragraph. -/
theorem C9_witness :
    scanStep "hello".data [] [] = ([Element.para "hello".data Style.body], []) := by
  have h := C9_default_paragraph "hello".data [] [] (by decide) (by decide) (by decide)
    (by decide) (by decide) (by decide) (by decide) (by decide) (by decide) (by decide)
    (by decide)
  exact h.trans (by decide)

/-- C10: classification is performed on the whitespace-stripped line, so
padding a line with leading or trailing whitespace never changes the block
kind it is assigned — including the fence-opening/closing test and the
table-mode test, which the inner loops also apply to the stripped line —
and a whitespace-only line is the padding of the empty line, classified
Blank. -/
theorem C10_strip_invariant : ∀ raw pre post : List Char,
    (∀ c ∈ pre, isPySpace c = true) →
    (∀ c ∈ post, isPySpace c = true) →
    classifyLine (pre ++ raw ++ post) = classifyLine raw
    ∧ startsWithC (strip (pre ++ raw ++ post)) "```".data
        = startsWithC (strip raw) "```".data
    ∧ startsWithC (strip (pre ++ raw ++ post)) ['|'] = startsWithC (strip raw) ['|'] := by
  intro raw pre post hpre hpost
  have h := strip_pad raw hpre hpost
  refine ⟨?_, by rw [h], by rw [h]⟩
  simp only [classifyLine, h]

/-- Witness for C10: an indented, tab-terminated `"# T"` line classifies
like the unpadded one. -/
theorem C10_witness :
    classifyLine ("  ".data ++ "# T".data ++ "\t".data) = classifyLine "# T".data
    ∧ classifyLine "# T".data = LineKind.title := by
  refine ⟨(C10_strip_invariant "# T".data "  ".data "\t".data (by decide) (by decide)).1, by decide⟩

end GenPdf
